import Mathlib

/-!
Verification of the outline-extraction core of the PPT-generator app
(`app.py`).  Python strings are modelled as `List Char`; each Python
function of the core is translated into an executable Lean definition
carrying the same name where possible.  The LLM (`call_gemini`) is an
external oracle and is modelled as a function parameter `llm`.
-/

/-- Python whitespace, as recognised by `str.strip` and the regex class
the code uses (space, tab, newline, carriage return, vertical tab,
form feed). -/
def pySpace (c : Char) : Bool :=
  c = ' ' || c = '\t' || c = '\n' || c = '\r' || c = Char.ofNat 11 || c = Char.ofNat 12

/-- Python `str.rstrip()`: remove the maximal run of trailing whitespace. -/
def pyRstrip : List Char → List Char
  | [] => []
  | c :: rest =>
    let r := pyRstrip rest
    if r.isEmpty && pySpace c then [] else c :: r

/-- Python `str.strip()`: remove leading and trailing whitespace. -/
def pyStrip (l : List Char) : List Char :=
  pyRstrip (l.dropWhile pySpace)

/-- Python `str.splitlines()` worker: accumulates the current line
(reversed) and splits at line boundaries, with no trailing empty line. -/
def splitlinesAux : List Char → List Char → List (List Char)
  | [], acc => [acc.reverse]
  | '\r' :: '\n' :: rest, acc =>
    if rest.isEmpty then [acc.reverse] else acc.reverse :: splitlinesAux rest []
  | '\r' :: rest, acc =>
    if rest.isEmpty then [acc.reverse] else acc.reverse :: splitlinesAux rest []
  | '\n' :: rest, acc =>
    if rest.isEmpty then [acc.reverse] else acc.reverse :: splitlinesAux rest []
  | c :: rest, acc => splitlinesAux rest (c :: acc)

/-- Python `str.splitlines()` (empty string gives no lines). -/
def splitlines (l : List Char) : List (List Char) :=
  if l.isEmpty then [] else splitlinesAux l []

/-- Loop body of `split_text` (`app.py` lines 116-120), run for at most
`fuel` iterations of the Python `while start < n` loop; `none` means the
loop did not finish within `fuel` iterations. -/
def splitLoop (text : List Char) (chunk_size overlap : Nat) :
    Nat → Nat → List (List Char) → Option (List (List Char))
  | 0, _, _ => none
  | fuel + 1, start, chunks =>
    if start < text.length then
      if min (start + chunk_size) text.length = text.length then
        some (chunks ++ [(text.drop start).take (min (start + chunk_size) text.length - start)])
      else
        splitLoop text chunk_size overlap fuel
          (max 0 (min (start + chunk_size) text.length - overlap))
          (chunks ++ [(text.drop start).take (min (start + chunk_size) text.length - start)])
    else some chunks

/-- Model of `split_text(text, chunk_size, overlap)` (`app.py` lines 113-121),
with an explicit iteration budget `fuel` for the `while` loop. -/
def split_text_fuel (text : List Char) (chunk_size overlap fuel : Nat) :
    Option (List (List Char)) :=
  if text.isEmpty then some [] else splitLoop text chunk_size overlap fuel 0 []

/-- Reassemble chunks: the first chunk, then every later chunk with its
first `overlap` characters removed. -/
def glue (overlap : Nat) : List (List Char) → List Char
  | [] => []
  | h :: t => h ++ (t.map (fun x => x.drop overlap)).flatten

/-- One slide record produced by `parse_points`:
a Python dict with a title and a newline-joined description. -/
structure SlideRec where
  title : List Char
  description : List Char
deriving DecidableEq, Repr

/-- Parser state: flushed slides, the currently open slide title
(`None` before the first boundary line), and its content lines. -/
structure PPState where
  points : List SlideRec
  curTitle : Option (List Char)
  curContent : List (List Char)
deriving DecidableEq, Repr

/-- Substring test, Python `needle in hay`. -/
def isSubstr (hay needle : List Char) : Bool :=
  needle.isPrefixOf hay ||
    (match hay with
     | [] => false
     | _ :: t => isSubstr t needle)

/-- Does the list start with the given character? (Python `startswith`.) -/
def startsWithChar (l : List Char) (c : Char) : Bool :=
  match l with
  | [] => false
  | a :: _ => a = c

/-- Does the list start with one of the given characters? -/
def startsWithAnyChar (l : List Char) (cs : List Char) : Bool :=
  match l with
  | [] => false
  | a :: _ => cs.contains a

/-- Case-insensitive literal match: if `l` starts with the (lowercase)
pattern `p` up to `Char.toLower`, return the remainder. -/
def ciStrip : List Char → List Char → Option (List Char)
  | [], l => some l
  | _ :: _, [] => none
  | p :: ps, c :: cs => if c.toLower = p then ciStrip ps cs else none

/-- The boundary regex of `parse_points` (`app.py` line 48):
`^\s*(Slide|Section)\s*(\d+)\s*:\s*(.+)$`, case-insensitive, applied
with `re.match`.  Returns group 3 (the raw title text) on a match.
When everything after the colon is whitespace, the greedy `\s*`
backtracks one character so that `.+` captures the final character. -/
def matchSlideHeader (line : List Char) : Option (List Char) :=
  let r0 := line.dropWhile pySpace
  match (ciStrip "slide".toList r0).orElse (fun _ => ciStrip "section".toList r0) with
  | none => none
  | some r1 =>
    let r2 := r1.dropWhile pySpace
    if (r2.takeWhile Char.isDigit).isEmpty then none
    else
      match (r2.dropWhile Char.isDigit).dropWhile pySpace with
      | ':' :: r4 =>
        let g3 := r4.dropWhile pySpace
        if g3.isEmpty then
          if r4.isEmpty then none else some (r4.drop (r4.length - 1))
        else some g3
      | _ => none

/-- Model of `re.sub(r"[#*>X]", "", ln).rstrip()` where X is the backtick
(`app.py` line 45): delete the four marker characters, then right-trim. -/
def preprocessLine (ln : List Char) : List Char :=
  pyRstrip (ln.filter (fun c => !(c = '#' || c = '*' || c = '>' || c = Char.ofNat 96)))

/-- Flush the currently open slide (Python `if current_title:` — the
check is falsy both for `None` and for an empty title). -/
def flushState (st : PPState) : List SlideRec :=
  match st.curTitle with
  | none => st.points
  | some t =>
    if t.isEmpty then st.points
    else st.points ++ [⟨t, List.intercalate ['\n'] st.curContent⟩]

/-- One iteration of the `for line in lines` loop of `parse_points`
(`app.py` lines 46-61). -/
def processLine (st : PPState) (line : List Char) : PPState :=
  if line.isEmpty || isSubstr line "Would you like".toList then st
  else
    match matchSlideHeader line with
    | some g3 => ⟨flushState st, some (pyStrip g3), []⟩
    | none =>
      if startsWithChar (pyStrip line) '-' then
        let text := pyStrip (line.dropWhile (fun c => c = '-'))
        if text.isEmpty then st
        else ⟨st.points, st.curTitle, st.curContent ++ ['•' :: ' ' :: text]⟩
      else if startsWithAnyChar (pyStrip line) ['•', '*'] || ("  ".toList).isPrefixOf line then
        let text := pyStrip (line.dropWhile (fun c => c = '•' || c = '*'))
        if text.isEmpty then st
        else ⟨st.points, st.curTitle, st.curContent ++ ['-' :: ' ' :: text]⟩
      else
        if (pyStrip line).isEmpty then st
        else ⟨st.points, st.curTitle, st.curContent ++ [pyStrip line]⟩

/-- Initial parser state. -/
def initState : PPState := ⟨[], none, []⟩

/-- The `parse_points` loop run on already-preprocessed lines, with the
final flush (`app.py` lines 62-63). -/
def parseLines (ls : List (List Char)) : List SlideRec :=
  flushState (ls.foldl processLine initState)

/-- Model of `parse_points(points_text)` (`app.py` lines 43-64). -/
def parse_points (points_text : List Char) : List SlideRec :=
  parseLines ((splitlines points_text).map preprocessLine)

/-- Numeric value of a digit run (Python `int(m.group(1))`). -/
def natOfDigits (ds : List Char) : Nat :=
  ds.foldl (fun acc c => acc * 10 + (c.toNat - 48)) 0

/-- The count-noun alternation `slides?|sections?|pages?` of the regex in
`extract_slide_count` (`app.py` line 37), case-insensitive: the optional
trailing `s` never affects whether a match exists. -/
def nounMatch (l : List Char) : Bool :=
  (ciStrip "slide".toList l).isSome ||
  (ciStrip "section".toList l).isSome ||
  (ciStrip "page".toList l).isSome

/-- Try to match `(\d+)\s*(slides?|sections?|pages?)` at the start of `l`,
returning the numeric group.  Backtracking inside `\d+` or `\s*` can
never rescue a failed match (a digit is neither whitespace nor a noun
letter), so maximal munch is faithful. -/
def tryCountAt (l : List Char) : Option Nat :=
  let ds := l.takeWhile Char.isDigit
  if ds.isEmpty then none
  else if nounMatch ((l.dropWhile Char.isDigit).dropWhile pySpace) then
    some (natOfDigits ds)
  else none

/-- Model of `re.search` for the count pattern: the leftmost position where the
pattern matches, scanning left to right. -/
def findCount : List Char → Option Nat
  | [] => none
  | c :: rest =>
    match tryCountAt (c :: rest) with
    | some n => some n
    | none => findCount rest

/-- Model of `extract_slide_count(description, default)` (`app.py` lines 36-41):
on a match return `max(1, total - 1)`; otherwise `None` when no default
is supplied, else `default - 1`. -/
def extract_slide_count (description : List Char) (default : Option Nat) : Option Nat :=
  match findCount description with
  | some total => some (max 1 (total - 1))
  | none =>
    match default with
    | none => none
    | some d => some (d - 1)

/-- Worker for `re.sub(r"\s+", " ", s)`: the flag records whether the
previous character was whitespace (in which case a further whitespace
character extends the same run and emits nothing). -/
def collapseWsAux : Bool → List Char → List Char
  | _, [] => []
  | prevSpace, c :: rest =>
    if pySpace c then
      if prevSpace then collapseWsAux true rest
      else ' ' :: collapseWsAux true rest
    else c :: collapseWsAux false rest

/-- Model of `re.sub(r"\s+", " ", s)`: collapse every maximal whitespace run into
a single space. -/
def collapseWs (l : List Char) : List Char :=
  collapseWsAux false l

/-- Model of `clean_title_text(title)` (`app.py` lines 228-230): empty (falsy)
input gives the placeholder, otherwise strip then collapse whitespace. -/
def clean_title_text (title : List Char) : List Char :=
  if title.isEmpty then "Presentation".toList
  else collapseWs (pyStrip title)

/-- Decimal digits of a natural number (for Python f-string `{i+1}`). -/
def natDigits (n : Nat) : List Char :=
  if h : n < 10 then [Char.ofNat (48 + n)]
  else natDigits (n / 10) ++ [Char.ofNat (48 + n % 10)]
decreasing_by
  simp_wf
  exact Nat.div_lt_self (by omega) (by omega)

/-- An outline: the Python dict with keys `title` and `slides`. -/
structure Outline where
  title : List Char
  slides : List SlideRec
deriving DecidableEq, Repr

/-- The serialization of the slides inside `edit_outline_with_feedback`
(`app.py` lines 89-91):
join of `Slide {i+1}: {title}\n{description}`. -/
def outlineSerial (slides : List SlideRec) : List Char :=
  List.intercalate ['\n']
    (slides.enum.map (fun p =>
      "Slide ".toList ++ natDigits (p.1 + 1) ++ ": ".toList ++ p.2.title
        ++ ['\n'] ++ p.2.description))

/-- The revision prompt of `edit_outline_with_feedback` (`app.py`
lines 92-109); the fixed English instruction text is abbreviated, the
interpolated data is placed exactly as in the source. -/
def revisePrompt (title outline_text feedback : List Char) : List Char :=
  "You are an assistant improving a PowerPoint outline. Current Outline: Title: ".toList
    ++ title ++ ['\n'] ++ outline_text
    ++ "\nFeedback:\n".toList ++ feedback
    ++ "\nTask: apply the feedback; same format; do NOT add a title slide.".toList

/-- Model of `edit_outline_with_feedback(outline, feedback)` (`app.py`
lines 88-111), with the LLM round-trip as an oracle parameter. -/
def edit_outline_with_feedback (llm : List Char → List Char)
    (outline : Outline) (feedback : List Char) : Outline :=
  let outline_text := outlineSerial outline.slides
  let prompt := revisePrompt outline.title outline_text feedback
  let updated_points := parse_points (llm prompt)
  ⟨outline.title, updated_points⟩

/-- The single-chunk prompt of `summarize_long_text` (instruction text
abbreviated; the document is embedded verbatim). -/
def directPrompt (full_text : List Char) : List Char :=
  "Read and analyze the entire document below thoroughly. ... Document:\n----------------\n".toList
    ++ full_text ++ "\n----------------\n".toList

/-- The per-chunk analysis prompt (instruction text abbreviated). -/
def chunkPrompt (idx : Nat) (ch : List Char) : List Char :=
  "You will be given CHUNK ".toList ++ natDigits idx
    ++ " of a larger document. ... Chunk content follows:\n----------------\n".toList
    ++ ch ++ "\n----------------\n".toList

/-- The final combination prompt (instruction text abbreviated). -/
def combinePrompt (combined : List Char) : List Char :=
  "You have a set of detailed chunk analyses from a long document ...\n----------------\n".toList
    ++ combined ++ "\n----------------\n\nNow produce the final unified summary described above.\n".toList

/-- Model of `summarize_long_text(full_text)` (`app.py` lines 124-202).  The LLM
is the oracle `llm`; the second component counts how many LLM calls were
issued.  `split_text` terminates here (overlap 400 < chunk 8000), so the
fuel `length + 1` is always sufficient. -/
def summarize_long_text (llm : List Char → List Char) (full_text : List Char) :
    List Char × Nat :=
  if full_text.isEmpty || (pyStrip full_text).isEmpty then ([], 0)
  else
    let chunks := (split_text_fuel full_text 8000 400 (full_text.length + 1)).getD []
    if chunks.length ≤ 1 then
      (pyStrip (llm (directPrompt full_text)), 1)
    else
      let partial_analyses := chunks.enum.map (fun p =>
        "CHUNK ".toList ++ natDigits (p.1 + 1) ++ " ANALYSIS:\n".toList
          ++ pyStrip (llm (chunkPrompt (p.1 + 1) p.2)))
      let combined := List.intercalate "\n\n".toList partial_analyses
      (pyStrip (llm (combinePrompt combined)), chunks.length + 1)

/-- Invariant of one parsed slide record: the title is fixed by
trimming and non-empty, and the description is the newline join of
non-empty content lines. -/
abbrev InvRec (r : SlideRec) : Prop :=
  pyStrip r.title = r.title ∧ r.title ≠ [] ∧
    ∃ ls, r.description = List.intercalate ['\n'] ls ∧ ∀ l ∈ ls, l ≠ []

/-- Invariant of the parser state: flushed records satisfy `InvRec`,
any stored open title is trimmed, and pending content lines are
non-empty. -/
abbrev InvState (st : PPState) : Prop :=
  (∀ r ∈ st.points, InvRec r) ∧
    (∀ t, st.curTitle = some t → pyStrip t = t) ∧
    (∀ l ∈ st.curContent, l ≠ [])

/-! Theorems. -/

theorem splitLoop_stuck : ∀ fuel acc, splitLoop "abc".toList 1 1 fuel 0 acc = none := by
  intro fuel
  induction fuel with
  | zero => intro acc; rfl
  | succ f ih =>
    intro acc
    have h : splitLoop "abc".toList 1 1 (f + 1) 0 acc
        = splitLoop "abc".toList 1 1 f 0 (acc ++ ["a".toList]) := rfl
    rw [h]
    exact ih _

/-- C1: the claim asserts `split_text` terminates for every
`chunkSize > 0` and `overlap ≥ 0`, including `overlap ≥ chunkSize`.
The code has no progress guard: on `text = "abc"`, `chunk_size = 1`,
`overlap = 1` the window start is recomputed as
`max(0, end - overlap) = 0` forever, so no iteration budget ever
completes the loop. -/
theorem split_text_nonterminating :
    ∀ fuel, split_text_fuel "abc".toList 1 1 fuel = none := by
  intro fuel
  show splitLoop "abc".toList 1 1 fuel 0 [] = none
  exact splitLoop_stuck fuel []

/-- C3 counterexample: `clean_title_text` on the whitespace-only string
`"   "` returns the empty string, not a non-empty placeholder. -/
theorem clean_title_text_whitespace_empty :
    clean_title_text ("   ").toList = [] := by decide

/-- C3 (amended): `clean_title_text ""` is the non-empty placeholder
`"Presentation"`, but every non-empty whitespace-only input yields the
empty string — the whitespace-only case is not caught by the fallback. -/
theorem clean_title_text_spec :
    (clean_title_text [] = "Presentation".toList ∧ "Presentation".toList ≠ []) ∧
    (∀ t : List Char, t ≠ [] → (∀ c ∈ t, pySpace c = true) → clean_title_text t = []) := by
  refine ⟨⟨rfl, by decide⟩, ?_⟩
  intro t ht hsp
  have hd : t.dropWhile pySpace = [] := List.dropWhile_eq_nil_iff.mpr hsp
  have hne : t.isEmpty = false := by
    cases t with
    | nil => exact absurd rfl ht
    | cons a l => rfl
  simp only [clean_title_text, hne, Bool.false_eq_true, if_false, pyStrip, hd]
  rfl

theorem clean_title_text_spec_witness :
    ("   ".toList ≠ ([] : List Char)) ∧ clean_title_text ("   ").toList = [] :=
  ⟨by decide, clean_title_text_spec.2 ("   ").toList (by decide) (by decide)⟩

/-- C4 counterexample: on `"1 slide"` the count pattern matches with
`N = 1`, but `extract_slide_count` returns `1` (because of the
`max(1, total - 1)` clamp), not `N - 1 = 0`. -/
theorem extract_slide_count_one_slide_cex :
    findCount ("1 slide").toList = some 1 ∧
    extract_slide_count ("1 slide").toList none = some 1 ∧
    (some 1 : Option Nat) ≠ some (1 - 1) := by decide

/-- C4 (amended): when the count pattern matches with number `N`,
`extract_slide_count` returns `max 1 (N - 1)` — which equals `N - 1`
exactly when `N ≥ 2` — and it returns `None` when no pattern occurs and
no default is supplied. -/
theorem extract_slide_count_spec :
    (∀ (desc : List Char) (n : Nat), findCount desc = some n →
        extract_slide_count desc none = some (max 1 (n - 1))) ∧
    (∀ (desc : List Char) (n : Nat), findCount desc = some n → 2 ≤ n →
        extract_slide_count desc none = some (n - 1)) ∧
    (∀ desc : List Char, findCount desc = none →
        extract_slide_count desc none = none) := by
  refine ⟨?_, ?_, ?_⟩
  · intro desc n h
    simp [extract_slide_count, h]
  · intro desc n h h2
    simp only [extract_slide_count, h]
    congr 1
    omega
  · intro desc h
    simp [extract_slide_count, h]

theorem extract_slide_count_spec_witness :
    findCount ("12 slides").toList = some 12 ∧
    extract_slide_count ("12 slides").toList none = some 11 :=
  ⟨by decide, extract_slide_count_spec.2.1 ("12 slides").toList 12 (by decide) (by decide)⟩

/-- C6: on the well-formed input `"Slide 1: A\n- x\n- y\nSlide 2: B\n- z"`
the parser yields exactly the two records
`{title "A", description "• x\n• y"}` and `{title "B", description "• z"}`. -/
theorem parse_points_wellformed_example :
    parse_points ("Slide 1: A\n- x\n- y\nSlide 2: B\n- z").toList =
      [⟨"A".toList, ("• x\n• y").toList⟩, ⟨"B".toList, ("• z").toList⟩] := by decide

/-- C9: the outline returned by `edit_outline_with_feedback` keeps the
input outline's title, for every LLM behaviour, outline and feedback. -/
theorem edit_outline_preserves_title :
    ∀ (llm : List Char → List Char) (outline : Outline) (feedback : List Char),
      (edit_outline_with_feedback llm outline feedback).title = outline.title := by
  intro llm outline feedback
  rfl

theorem pyRstrip_subset : ∀ (l : List Char) (a : Char), a ∈ pyRstrip l → a ∈ l := by
  intro l
  induction l with
  | nil => intro a h; exact absurd h (List.not_mem_nil a)
  | cons c rest ih =>
    intro a h
    simp only [pyRstrip] at h
    by_cases hc : ((pyRstrip rest).isEmpty && pySpace c) = true
    · rw [if_pos hc] at h
      exact absurd h (List.not_mem_nil a)
    · rw [if_neg hc] at h
      rcases List.mem_cons.mp h with h1 | h2
      · exact h1 ▸ List.mem_cons_self c rest
      · exact List.mem_cons_of_mem c (ih a h2)

/-- C5 counterexample: the line `* point` does NOT contribute the
sub-level marker `- point`; the `*` is deleted by the global
preprocessing substitution, and the line survives as the plain content
line `point`. -/
theorem parse_points_star_cex :
    parse_points ("Slide 1: A\n* point").toList = [⟨"A".toList, "point".toList⟩] ∧
    (⟨"A".toList, "point".toList⟩ : SlideRec) ≠ ⟨"A".toList, ("- point").toList⟩ := by
  decide

/-- C5 (amended): a content line that (after preprocessing, which
deletes every `#`, `*`, `>` and backtick character) starts with `•`
when stripped, or starts with two leading spaces, has its bullet glyphs
stripped and is appended re-prefixed as `- text`, with
empty-after-strip lines dropped.  No preprocessed line can begin with
`*` (the substitution removes them all); in particular `* point`
contributes the plain line `point`, not `- point`. -/
theorem parse_points_bullet_spec :
    (∀ (st : PPState) (line : List Char),
        line.isEmpty = false →
        isSubstr line "Would you like".toList = false →
        matchSlideHeader line = none →
        startsWithChar (pyStrip line) '-' = false →
        (startsWithAnyChar (pyStrip line) ['•', '*'] = true ∨
          ("  ".toList).isPrefixOf line = true) →
        processLine st line =
          (if (pyStrip (line.dropWhile (fun c => c = '•' || c = '*'))).isEmpty then st
           else ⟨st.points, st.curTitle,
             st.curContent ++ ['-' :: ' ' :: pyStrip (line.dropWhile (fun c => c = '•' || c = '*'))]⟩)) ∧
    (∀ ln : List Char, '*' ∉ preprocessLine ln) ∧
    parse_points ("Slide 1: A\n* point").toList = [⟨"A".toList, "point".toList⟩] := by
  refine ⟨?_, ?_, by decide⟩
  · intro st line h1 h2 h3 h4 h5
    have h5' : (startsWithAnyChar (pyStrip line) ['•', '*']
        || ("  ".toList).isPrefixOf line) = true := by
      rcases h5 with h | h
      · rw [h, Bool.true_or]
      · rw [h, Bool.or_true]
    simp only [processLine, h1, h2, h3, h4, h5', Bool.or_self, Bool.false_eq_true,
      if_false, if_true, Bool.or_false, Bool.false_or]
  · intro ln hmem
    have h1 : '*' ∈ ln.filter
        (fun c => !(c = '#' || c = '*' || c = '>' || c = Char.ofNat 96)) :=
      pyRstrip_subset _ _ hmem
    have h2 := (List.mem_filter.mp h1).2
    simp at h2

theorem parse_points_bullet_spec_witness :
    processLine initState ("• x").toList =
      (if (pyStrip (("• x").toList.dropWhile (fun c => c = '•' || c = '*'))).isEmpty
       then initState
       else ⟨initState.points, initState.curTitle,
         initState.curContent ++
           ['-' :: ' ' :: pyStrip (("• x").toList.dropWhile (fun c => c = '•' || c = '*'))]⟩) :=
  parse_points_bullet_spec.1 initState ("• x").toList
    (by decide) (by decide) (by decide) (by decide) (Or.inl (by decide))

/-- C8: `summarize_long_text` returns the empty string without issuing
any LLM call (the call counter is `0`) on the empty input and on every
whitespace-only input, for every LLM behaviour. -/
theorem summarize_empty_short_circuit :
    (∀ llm : List Char → List Char, summarize_long_text llm [] = ([], 0)) ∧
    (∀ (llm : List Char → List Char) (t : List Char),
        (∀ c ∈ t, pySpace c = true) → summarize_long_text llm t = ([], 0)) := by
  constructor
  · intro llm
    rfl
  · intro llm t hsp
    have hd : t.dropWhile pySpace = [] := List.dropWhile_eq_nil_iff.mpr hsp
    have hs : (pyStrip t).isEmpty = true := by
      rw [pyStrip, hd]
      rfl
    simp [summarize_long_text, hs]

theorem summarize_empty_short_circuit_witness :
    summarize_long_text (fun s => s) ("   ").toList = ([], 0) :=
  summarize_empty_short_circuit.2 (fun s => s) ("   ").toList (by decide)

theorem processLine_no_header (st : PPState) (line : List Char)
    (h : matchSlideHeader line = none) :
    ∃ x, processLine st line = ⟨st.points, st.curTitle, x⟩ := by
  simp only [processLine, h]
  split
  · exact ⟨st.curContent, rfl⟩
  · split
    · split
      · exact ⟨st.curContent, rfl⟩
      · exact ⟨_, rfl⟩
    · split
      · split
        · exact ⟨st.curContent, rfl⟩
        · exact ⟨_, rfl⟩
      · split
        · exact ⟨st.curContent, rfl⟩
        · exact ⟨_, rfl⟩

theorem foldl_no_header (ls : List (List Char)) :
    ∀ st : PPState, (∀ l ∈ ls, matchSlideHeader l = none) →
      (ls.foldl processLine st).points = st.points ∧
        (ls.foldl processLine st).curTitle = st.curTitle := by
  induction ls with
  | nil => intro st _; exact ⟨rfl, rfl⟩
  | cons l ls ih =>
    intro st h
    obtain ⟨x, hx⟩ := processLine_no_header st l (h l (List.mem_cons_self _ _))
    rw [List.foldl_cons, hx]
    exact ih ⟨st.points, st.curTitle, x⟩ (fun l2 hl2 => h l2 (List.mem_cons_of_mem _ hl2))

theorem flushState_none (st : PPState) (h : st.curTitle = none) :
    flushState st = st.points := by
  simp only [flushState, h]

theorem parseLines_content_irrelevant (ls : List (List Char)) :
    ∀ c1 c2 : List (List Char),
      flushState (ls.foldl processLine ⟨[], none, c1⟩) =
        flushState (ls.foldl processLine ⟨[], none, c2⟩) := by
  induction ls with
  | nil => intro c1 c2; rfl
  | cons l ls ih =>
    intro c1 c2
    rw [List.foldl_cons, List.foldl_cons]
    by_cases hskip : (l.isEmpty || isSubstr l "Would you like".toList) = true
    · have e1 : processLine ⟨[], none, c1⟩ l = ⟨[], none, c1⟩ := by
        unfold processLine
        rw [if_pos hskip]
      have e2 : processLine ⟨[], none, c2⟩ l = ⟨[], none, c2⟩ := by
        unfold processLine
        rw [if_pos hskip]
      rw [e1, e2]
      exact ih c1 c2
    · cases hm : matchSlideHeader l with
      | some g3 =>
        have e1 : processLine ⟨[], none, c1⟩ l = ⟨[], some (pyStrip g3), []⟩ := by
          unfold processLine
          rw [if_neg hskip, hm]
          rfl
        have e2 : processLine ⟨[], none, c2⟩ l = ⟨[], some (pyStrip g3), []⟩ := by
          unfold processLine
          rw [if_neg hskip, hm]
          rfl
        rw [e1, e2]
      | none =>
        obtain ⟨x1, hx1⟩ := processLine_no_header ⟨[], none, c1⟩ l hm
        obtain ⟨x2, hx2⟩ := processLine_no_header ⟨[], none, c2⟩ l hm
        rw [hx1, hx2]
        exact ih x1 x2

/-- C7: `parse_points` is a total function; `"hello\nworld"` parses to
the empty sequence; any input none of whose (preprocessed) lines
matches the slide/section boundary regex parses to the empty sequence;
and lines before the first boundary line are silently discarded — they
never influence the parsed output. -/
theorem parse_points_resilient :
    parse_points ("hello\nworld").toList = [] ∧
    (∀ txt : List Char,
        (∀ l ∈ (splitlines txt).map preprocessLine, matchSlideHeader l = none) →
        parse_points txt = []) ∧
    (∀ pre post : List (List Char),
        (∀ l ∈ pre, matchSlideHeader l = none) →
        parseLines (pre ++ post) = parseLines post) := by
  refine ⟨by decide, ?_, ?_⟩
  · intro txt h
    obtain ⟨hp, ht⟩ := foldl_no_header _ initState h
    unfold parse_points parseLines
    rw [flushState_none _ ht]
    exact hp
  · intro pre post h
    unfold parseLines
    rw [List.foldl_append]
    obtain ⟨hp, ht⟩ := foldl_no_header pre initState h
    have hp2 : (pre.foldl processLine initState).points = [] := hp
    have ht2 : (pre.foldl processLine initState).curTitle = none := ht
    have heq : pre.foldl processLine initState
        = ⟨[], none, (pre.foldl processLine initState).curContent⟩ := by
      conv_lhs => rw [show pre.foldl processLine initState
        = ⟨(pre.foldl processLine initState).points,
           (pre.foldl processLine initState).curTitle,
           (pre.foldl processLine initState).curContent⟩ from rfl]
      rw [hp2, ht2]
    rw [heq]
    exact parseLines_content_irrelevant post _ []

theorem parse_points_resilient_witness :
    parseLines (["hello".toList, "world".toList] ++ ["Slide 1: A".toList])
      = parseLines ["Slide 1: A".toList] :=
  parse_points_resilient.2.2 ["hello".toList, "world".toList] ["Slide 1: A".toList]
    (by decide)

theorem pyRstrip_cons (c : Char) (rest : List Char) :
    pyRstrip (c :: rest) =
      if (pyRstrip rest).isEmpty && pySpace c then [] else c :: pyRstrip rest := rfl

theorem dropWhile_dropWhile (p : Char → Bool) (l : List Char) :
    (l.dropWhile p).dropWhile p = l.dropWhile p := by
  induction l with
  | nil => rfl
  | cons c t ih =>
    cases h : p c with
    | true =>
      rw [List.dropWhile_cons_of_pos h]
      exact ih
    | false =>
      have h2 : ¬p c = true := by rw [h]; exact Bool.false_ne_true
      rw [List.dropWhile_cons_of_neg h2, List.dropWhile_cons_of_neg h2]

theorem pyRstrip_idem (l : List Char) : pyRstrip (pyRstrip l) = pyRstrip l := by
  induction l with
  | nil => rfl
  | cons c rest ih =>
    rw [pyRstrip_cons]
    by_cases h : ((pyRstrip rest).isEmpty && pySpace c) = true
    · rw [if_pos h]
      rfl
    · rw [if_neg h, pyRstrip_cons, ih, if_neg h]

theorem pyRstrip_dropWhile_comm (l : List Char) :
    pyRstrip (l.dropWhile pySpace) = (pyRstrip l).dropWhile pySpace := by
  induction l with
  | nil => rfl
  | cons c rest ih =>
    cases hc : pySpace c with
    | true =>
      rw [List.dropWhile_cons_of_pos hc, pyRstrip_cons]
      by_cases he : (pyRstrip rest).isEmpty = true
      · have hand : ((pyRstrip rest).isEmpty && pySpace c) = true := by
          rw [he, hc]
          rfl
        rw [if_pos hand]
        have hnil : pyRstrip rest = [] := by
          cases hr : pyRstrip rest with
          | nil => rfl
          | cons a as =>
            rw [hr] at he
            simp at he
        rw [ih, hnil]
      · have hand : ¬((pyRstrip rest).isEmpty && pySpace c) = true := by
          rw [Bool.and_eq_true]
          intro hb
          exact he hb.1
        rw [if_neg hand, List.dropWhile_cons_of_pos hc]
        exact ih
    | false =>
      have hc2 : ¬pySpace c = true := by rw [hc]; exact Bool.false_ne_true
      rw [List.dropWhile_cons_of_neg hc2, pyRstrip_cons]
      have hand : ¬((pyRstrip rest).isEmpty && pySpace c) = true := by
        rw [hc, Bool.and_false]
        exact Bool.false_ne_true
      rw [if_neg hand, List.dropWhile_cons_of_neg hc2]

theorem pyStrip_idem (l : List Char) : pyStrip (pyStrip l) = pyStrip l := by
  show pyRstrip ((pyRstrip (l.dropWhile pySpace)).dropWhile pySpace)
    = pyRstrip (l.dropWhile pySpace)
  rw [← pyRstrip_dropWhile_comm, dropWhile_dropWhile, pyRstrip_idem]

theorem flushState_some (st : PPState) (t : List Char) (h : st.curTitle = some t) :
    flushState st =
      if t.isEmpty then st.points
      else st.points ++ [⟨t, List.intercalate ['\n'] st.curContent⟩] := by
  unfold flushState
  rw [h]

theorem processLine_skip (st : PPState) (line : List Char)
    (h : (line.isEmpty || isSubstr line "Would you like".toList) = true) :
    processLine st line = st := by
  unfold processLine
  rw [if_pos h]

theorem processLine_header (st : PPState) (line g3 : List Char)
    (hskip : ¬(line.isEmpty || isSubstr line "Would you like".toList) = true)
    (hm : matchSlideHeader line = some g3) :
    processLine st line = ⟨flushState st, some (pyStrip g3), []⟩ := by
  unfold processLine
  rw [if_neg hskip, hm]

theorem processLine_content (st : PPState) (line : List Char)
    (hskip : ¬(line.isEmpty || isSubstr line "Would you like".toList) = true)
    (hm : matchSlideHeader line = none) :
    processLine st line =
      (if startsWithChar (pyStrip line) '-' then
        (if (pyStrip (line.dropWhile (fun c => c = '-'))).isEmpty then st
         else ⟨st.points, st.curTitle,
           st.curContent ++ ['•' :: ' ' :: pyStrip (line.dropWhile (fun c => c = '-'))]⟩)
      else if startsWithAnyChar (pyStrip line) ['•', '*'] || ("  ".toList).isPrefixOf line then
        (if (pyStrip (line.dropWhile (fun c => c = '•' || c = '*'))).isEmpty then st
         else ⟨st.points, st.curTitle,
           st.curContent ++ ['-' :: ' ' :: pyStrip (line.dropWhile (fun c => c = '•' || c = '*'))]⟩)
      else
        (if (pyStrip line).isEmpty then st
         else ⟨st.points, st.curTitle, st.curContent ++ [pyStrip line]⟩)) := by
  unfold processLine
  rw [if_neg hskip, hm]

theorem flushState_inv (st : PPState) (h : InvState st) :
    ∀ r ∈ flushState st, InvRec r := by
  intro r hr
  cases hct : st.curTitle with
  | none =>
    rw [flushState_none st hct] at hr
    exact h.1 r hr
  | some t =>
    rw [flushState_some st t hct] at hr
    by_cases he : t.isEmpty = true
    · rw [if_pos he] at hr
      exact h.1 r hr
    · rw [if_neg he] at hr
      rcases List.mem_append.mp hr with h1 | h2
      · exact h.1 r h1
      · have hre := List.mem_singleton.mp h2
        subst hre
        refine ⟨h.2.1 t hct, ?_, st.curContent, rfl, h.2.2⟩
        intro hnil
        have hnil2 : t = [] := hnil
        rw [hnil2] at he
        exact he rfl

theorem processLine_inv (st : PPState) (line : List Char) (h : InvState st) :
    InvState (processLine st line) := by
  by_cases hskip : (line.isEmpty || isSubstr line "Would you like".toList) = true
  · rw [processLine_skip st line hskip]
    exact h
  · cases hm : matchSlideHeader line with
    | some g3 =>
      rw [processLine_header st line g3 hskip hm]
      refine ⟨flushState_inv st h, ?_, ?_⟩
      · intro t ht
        have hg : pyStrip g3 = t := Option.some.inj ht
        rw [← hg]
        exact pyStrip_idem g3
      · intro l hl
        exact absurd hl (List.not_mem_nil l)
    | none =>
      rw [processLine_content st line hskip hm]
      split
      · split
        · exact h
        · refine ⟨h.1, h.2.1, ?_⟩
          intro l hl
          rcases List.mem_append.mp hl with h1 | h2
          · exact h.2.2 l h1
          · rw [List.mem_singleton.mp h2]
            exact List.cons_ne_nil _ _
      · split
        · split
          · exact h
          · refine ⟨h.1, h.2.1, ?_⟩
            intro l hl
            rcases List.mem_append.mp hl with h1 | h2
            · exact h.2.2 l h1
            · rw [List.mem_singleton.mp h2]
              exact List.cons_ne_nil _ _
        · split
          · exact h
          · next hne =>
            refine ⟨h.1, h.2.1, ?_⟩
            intro l hl
            rcases List.mem_append.mp hl with h1 | h2
            · exact h.2.2 l h1
            · rw [List.mem_singleton.mp h2]
              intro hnil
              exact hne (by rw [hnil]; rfl)

theorem foldl_inv (ls : List (List Char)) :
    ∀ st : PPState, InvState st → InvState (ls.foldl processLine st) := by
  induction ls with
  | nil => intro st h; exact h
  | cons l ls ih =>
    intro st h
    rw [List.foldl_cons]
    exact ih _ (processLine_inv st l h)

theorem initState_inv : InvState initState :=
  ⟨fun r hr => absurd hr (List.not_mem_nil r),
   fun _ ht => Option.noConfusion ht,
   fun l hl => absurd hl (List.not_mem_nil l)⟩

/-- C10: every record produced by `parse_points` has a title that is
non-empty after trimming, and a description that is the newline join of
non-empty lines (so no description line is empty), while the
description as a whole may be the empty string. -/
theorem parse_points_record_invariants :
    (∀ (txt : List Char) (r : SlideRec), r ∈ parse_points txt →
        pyStrip r.title ≠ [] ∧
          ∃ ls, r.description = List.intercalate ['\n'] ls ∧ ∀ l ∈ ls, l ≠ []) ∧
    parse_points ("Slide 1: A").toList = [⟨"A".toList, []⟩] := by
  constructor
  · intro txt r hr
    have hinv : InvState (((splitlines txt).map preprocessLine).foldl processLine initState) :=
      foldl_inv _ initState initState_inv
    have hrec : InvRec r := flushState_inv _ hinv r hr
    refine ⟨?_, hrec.2.2⟩
    rw [hrec.1]
    exact hrec.2.1
  · decide

theorem parse_points_record_invariants_witness :
    pyStrip (SlideRec.mk "A".toList ("• x").toList).title ≠ [] ∧
      ∃ ls, (SlideRec.mk "A".toList ("• x").toList).description
          = List.intercalate ['\n'] ls ∧ ∀ l ∈ ls, l ≠ [] :=
  parse_points_record_invariants.1 ("Slide 1: A\n- x").toList
    (SlideRec.mk "A".toList ("• x").toList) (by decide)

theorem splitLoop_succ (text : List Char) (c o f start : Nat) (chunks : List (List Char)) :
    splitLoop text c o (f + 1) start chunks =
      if start < text.length then
        if min (start + c) text.length = text.length then
          some (chunks ++ [(text.drop start).take (min (start + c) text.length - start)])
        else
          splitLoop text c o f (max 0 (min (start + c) text.length - o))
            (chunks ++ [(text.drop start).take (min (start + c) text.length - start)])
      else some chunks := rfl

theorem splitLoop_sound (text : List Char) (c o : Nat) (hoc : o < c) :
    ∀ (fuel start : Nat) (acc : List (List Char)),
      start + o < text.length →
      text.length ≤ start + fuel →
      ∃ hd tl,
        splitLoop text c o fuel start acc = some (acc ++ hd :: tl) ∧
        o < hd.length ∧
        glue o (hd :: tl) = text.drop start ∧
        (hd :: tl).length = (text.length - start - o + (c - o) - 1) / (c - o) := by
  intro fuel
  induction fuel with
  | zero =>
    intro start acc h1 h2
    exfalso
    omega
  | succ f ih =>
    intro start acc h1 h2
    have hsn : start < text.length := by omega
    rw [splitLoop_succ, if_pos hsn]
    by_cases hA : text.length ≤ start + c
    · have he : min (start + c) text.length = text.length := Nat.min_eq_right hA
      rw [he, if_pos rfl]
      refine ⟨(text.drop start).take (text.length - start), [], rfl, ?_, ?_, ?_⟩
      · rw [List.length_take, List.length_drop]
        omega
      · show (text.drop start).take (text.length - start)
          ++ (([] : List (List Char)).map (fun x => x.drop o)).flatten = text.drop start
        rw [List.map_nil, List.flatten_nil, List.append_nil,
          List.take_of_length_le (by rw [List.length_drop])]
      · show (1 : Nat) = (text.length - start - o + (c - o) - 1) / (c - o)
        have harith : text.length - start - o + (c - o) - 1
            = (text.length - start - o - 1) + (c - o) := by omega
        rw [harith, Nat.add_div_right _ (by omega : 0 < c - o),
          Nat.div_eq_of_lt (by omega : text.length - start - o - 1 < c - o)]
    · have hB : start + c < text.length := Nat.lt_of_not_le hA
      have he : min (start + c) text.length = start + c := Nat.min_eq_left (by omega)
      rw [he, if_neg (by omega : ¬start + c = text.length)]
      have htake : start + c - start = c := by omega
      rw [htake, Nat.zero_max]
      obtain ⟨hd, tl, heq, hlen, hglue, hcount⟩ :=
        ih (start + c - o) (acc ++ [(text.drop start).take c]) (by omega) (by omega)
      refine ⟨(text.drop start).take c, hd :: tl, ?_, ?_, ?_, ?_⟩
      · rw [heq, List.append_assoc]
        rfl
      · rw [List.length_take, List.length_drop]
        omega
      · show (text.drop start).take c
          ++ ((hd :: tl).map (fun x => x.drop o)).flatten = text.drop start
        rw [List.map_cons, List.flatten_cons]
        have hjoin : hd.drop o ++ (tl.map (fun x => x.drop o)).flatten
            = (hd ++ (tl.map (fun x => x.drop o)).flatten).drop o :=
          (List.drop_append_of_le_length (by omega : o ≤ hd.length)).symm
        rw [hjoin]
        have hg2 : hd ++ (tl.map (fun x => x.drop o)).flatten
            = text.drop (start + c - o) := hglue
        rw [hg2, List.drop_drop]
        have harg : start + c - o + o = start + c := by omega
        rw [harg, show text.drop (start + c) = (text.drop start).drop c from
          (List.drop_drop c start text).symm, List.take_append_drop]
      · show (hd :: tl).length + 1 = (text.length - start - o + (c - o) - 1) / (c - o)
        rw [hcount]
        have harith : text.length - start - o + (c - o) - 1
            = (text.length - (start + c - o) - o + (c - o) - 1) + (c - o) := by omega
        rw [harith, Nat.add_div_right _ (by omega : 0 < c - o)]

theorem splitLoop_single (text : List Char) (c o f : Nat)
    (h1 : 0 < text.length) (h2 : text.length ≤ c) :
    splitLoop text c o (f + 1) 0 [] = some [text] := by
  rw [splitLoop_succ, if_pos h1]
  have he : min (0 + c) text.length = text.length := Nat.min_eq_right (by omega)
  rw [he, if_pos rfl, List.drop_zero, Nat.sub_zero,
    List.take_of_length_le (le_refl text.length)]
  rfl

/-- C2 (amended): for `chunkSize > overlap ≥ 0` and enough fuel,
`split_text` terminates on every text and loses no data — the first
chunk followed by every later chunk minus its first `overlap`
characters reconstructs the text exactly — and the number of chunks is:
`0` for the empty text, exactly `1` when `0 < len ≤ overlap` (where the
claimed formula yields zero, or a negative value over the integers),
and `ceil((len - overlap) / (chunkSize - overlap))` when
`len > overlap`. -/
theorem split_text_reconstruction (text : List Char) (c o fuel : Nat)
    (hoc : o < c) (hfuel : text.length ≤ fuel) :
    ∃ cs, split_text_fuel text c o fuel = some cs ∧
      glue o cs = text ∧
      cs.length =
        (if text.length = 0 then 0
         else if text.length ≤ o then 1
         else (text.length - o + (c - o) - 1) / (c - o)) := by
  by_cases h0 : text.length = 0
  · have htext : text = [] := List.length_eq_zero.mp h0
    subst htext
    exact ⟨[], rfl, rfl, by simp⟩
  · have hne : text.isEmpty = false := by
      cases text with
      | nil => exact absurd rfl h0
      | cons a l => rfl
    unfold split_text_fuel
    rw [hne, if_neg Bool.false_ne_true]
    by_cases hso : text.length ≤ o
    · cases fuel with
      | zero => exact absurd hfuel (by omega)
      | succ f =>
        refine ⟨[text], splitLoop_single text c o f (by omega) (by omega), ?_, ?_⟩
        · show text ++ (([] : List (List Char)).map (fun x => x.drop o)).flatten = text
          rw [List.map_nil, List.flatten_nil, List.append_nil]
        · rw [if_neg h0, if_pos hso]
          rfl
    · obtain ⟨hd, tl, heq, hlen2, hglue, hcount⟩ :=
        splitLoop_sound text c o hoc fuel 0 [] (by omega) (by omega)
      refine ⟨hd :: tl, ?_, ?_, ?_⟩
      · rw [heq]
        rfl
      · rw [hglue, List.drop_zero]
      · rw [hcount, if_neg h0, if_neg hso]
        congr 1

/-- C2 counterexample: at `text = "a"`, `chunkSize = 3`, `overlap = 2`
(valid parameters: `3 > 2 ≥ 0`) the code returns one chunk, while the
claimed formula `ceil((len - overlap) / (chunkSize - overlap))`
evaluates to `0` (to `-1` over the integers), not `1`. -/
theorem split_text_count_cex :
    split_text_fuel ("a").toList 3 2 5 = some [("a").toList] ∧
    (("a").toList.length - 2 + (3 - 2) - 1) / (3 - 2) = 0 ∧
    Option.map List.length (split_text_fuel ("a").toList 3 2 5)
      ≠ some ((("a").toList.length - 2 + (3 - 2) - 1) / (3 - 2)) := by decide

theorem split_text_reconstruction_witness :
    ∃ cs, split_text_fuel ("abcdefgh").toList 3 1 8 = some cs ∧
      glue 1 cs = ("abcdefgh").toList ∧
      cs.length =
        (if ("abcdefgh").toList.length = 0 then 0
         else if ("abcdefgh").toList.length ≤ 1 then 1
         else (("abcdefgh").toList.length - 1 + (3 - 1) - 1) / (3 - 1)) :=
  split_text_reconstruction ("abcdefgh").toList 3 1 8 (by decide) (by decide)
